import Mathlib

/-!
Shallow embedding, in Lean 4, of the LC-3 two-pass assembler implemented in
this repository (lexer classification, operand construction, instruction
validation, pass-1 address assignment, symbol table, and pass-2 encoding),
together with theorems settling the specification claims about it.

Conventions of the embedding:
* C++ `std::string` / source slices are `List Char`; character comparisons in
  the C++ sources compare byte values, embedded via `Char.toNat`.
* 16-bit machine words and addresses are `Nat` reduced modulo 2^16 at the
  points where the C++ performs unsigned 16-bit arithmetic; `std::int16_t`
  values are `Int` (operand construction only ever stores values in
  [-32768, 32767]).
* Fallible operations and C++ undefined behaviour (out-of-bounds
  `std::vector` indexing, a failing `assert`, `front()` on an empty
  container) are modelled with `Option`: `none` means the C++ program has no
  defined result there.
* Diagnostic emission is modelled by the distinct error values of the
  functions that emit the diagnostics (the C++ prints to `std::cout` in
  exactly those branches).
-/

namespace LC3

/-- Token kinds, from `token.hpp` (`Token::TokenKind`). -/
inductive TokenKind where
  | Unknown
  | EOL
  | End
  | Opcode
  | Label
  | Register
  | Pseudo
  | Immediate
  | Number
  | String
  | Comma
deriving DecidableEq, Repr

/-- A token: kind plus the source slice `[begin_, end_)` it denotes, embedded
as the list of characters of the slice (the buffer itself is not modelled). -/
structure Token where
  kind : TokenKind
  content : List Char
deriving DecidableEq, Repr

/-- Operand type tags, from `operand.hpp` (`Operand::OperandType`). -/
inductive OperandType where
  | Register
  | Immediate
  | Number
  | Label
  | StringLiteral
deriving DecidableEq, Repr

/-- The tagged `Operand` union of `operand.hpp`: a register id, an immediate
or bare-number 16-bit integer, a label slice, or a string-literal slice
(quotes already stripped). -/
inductive Operand where
  | reg (id : Nat)
  | imm (v : Int)
  | num (v : Int)
  | lbl (s : List Char)
  | strLit (s : List Char)
deriving DecidableEq, Repr

/-- `Operand::type()`. -/
def Operand.type : Operand → OperandType
  | .reg _ => .Register
  | .imm _ => .Immediate
  | .num _ => .Number
  | .lbl _ => .Label
  | .strLit _ => .StringLiteral

/-- `Operand::register_id()`; `none` models the failing `assert(type_ ==
Register)` (undefined behaviour) on any other variant. -/
def Operand.register_id : Operand → Option Nat
  | .reg i => some i
  | _ => none

/-- `Operand::immediate_value()`; `none` models the failing `assert(type_ ==
Immediate)` on any other variant. -/
def Operand.immediate_value : Operand → Option Int
  | .imm v => some v
  | _ => none

/-- `Operand::regular_decimal()`; `none` models the failing `assert(type_ ==
Number)` on any other variant. -/
def Operand.regular_decimal : Operand → Option Int
  | .num v => some v
  | _ => none

/-- `Operand::label()`; `none` models the failing `assert(type_ == Label)` on
any other variant. -/
def Operand.label : Operand → Option (List Char)
  | .lbl s => some s
  | _ => none

/-- `Operand::string_literal()`; `none` models the failing `assert(type_ ==
StringLiteral)` on any other variant. -/
def Operand.string_literal : Operand → Option (List Char)
  | .strLit s => some s
  | _ => none

/-- `Operand::from_integer(is_immediate, imm)`. -/
def Operand.from_integer (im : Bool) (v : Int) : Operand :=
  if im then .imm v else .num v

/-- The opcode enumeration of `instruction.hpp` (`Instruction::Opcode`):
`UnknownOp` plus the real mnemonics and the pseudo-instructions. -/
inductive Opcode where
  | UnknownOp
  | ADD | AND | BR | BRn | BRz | BRp | BRzp | BRnp | BRnz | BRnzp
  | JMP | JSR | JSRR | LD | LDI | LDR | LEA | NOT | RET | RTI
  | ST | STI | STR | TRAP | GETC | OUT | PUTS | IN | PUTSP | HALT
  | ORIG | FILL | BLKW | STRINGZ | END
deriving DecidableEq, Repr

/-- An instruction, from `instruction.hpp`: optional label (empty list =
no label), opcode, operand list, and the address assigned in pass 1. -/
structure Instruction where
  label : List Char
  opcode : Opcode
  operands : List Operand
  address : Nat
deriving DecidableEq, Repr

/-- `Instruction::get_operand(i)`, i.e. `operands_[i]`; `none` models the
undefined behaviour of indexing the vector out of bounds. -/
def Instruction.get_operand (i : Instruction) (n : Nat) : Option Operand :=
  i.operands[n]?

/-- `Instruction::has_label()`: `!label_.empty()`. -/
def Instruction.has_label (i : Instruction) : Bool :=
  !i.label.isEmpty

/-- The digit value a character contributes under `std::stoll`: `0`-`9` map
to 0-9 and letters (either case) map to 10-35; any other character (value 99
here) is not a digit in any base ≤ 36. Byte ranges follow the C character
comparisons (`'0'` = 48, `'a'` = 97, `'A'` = 65). -/
def digitVal (c : Char) : Nat :=
  if 48 ≤ c.toNat ∧ c.toNat ≤ 57 then c.toNat - 48
  else if 97 ≤ c.toNat ∧ c.toNat ≤ 122 then c.toNat - 87
  else if 65 ≤ c.toNat ∧ c.toNat ≤ 90 then c.toNat - 55
  else 99

/-- Value of a digit string in the given base (most significant first). -/
def digitsVal (base : Nat) (ds : List Char) : Nat :=
  ds.foldl (fun acc c => acc * base + digitVal c) 0

/-- Digit-run conversion inside the `std::stoll` model: value of the longest
prefix of valid digits for `base`, with the already-decoded sign applied;
no digits at all is `std::invalid_argument`, modelled as `none`. -/
def stollDigits (base : Nat) (sgn : Int) (cs : List Char) : Option Int :=
  let ds := cs.takeWhile (fun d => decide (digitVal d < base))
  if ds.isEmpty then none else some (sgn * (digitsVal base ds : Int))

/-- Model of `std::stoll(s, nullptr, base)` as used by `string_to_integer`:
an optional single leading sign, then the longest prefix of valid digits for
`base`. (The inputs reaching it here never carry leading whitespace or a
`0x` prefix, and `std::out_of_range` for values beyond 64 bits is absorbed
by the caller's own range check, which such values fail as well.) -/
def stollModel (base : Nat) (cs : List Char) : Option Int :=
  match cs with
  | [] => none
  | c :: rest0 =>
    if c = '+' then stollDigits base 1 rest0
    else if c = '-' then stollDigits base (-1) rest0
    else stollDigits base 1 (c :: rest0)

/-- Reinterpretation of an integer as a two's-complement `std::int16_t`
(the effect of `static_cast<std::int16_t>` on an in-range-for-u16 value). -/
def toI16 (x : Int) : Int :=
  (x + 32768) % 65536 - 32768

/-- The conversion-and-range-check tail of `string_to_integer`
(`solution.cpp`): convert with `stoll` in the chosen base, reject values
above `uint16_t` max or below `int16_t` min (`ok = false`, modelled `none`),
and otherwise return the value cast to `std::int16_t`. -/
def sti_core (base : Nat) (cs : List Char) : Option Int :=
  match stollModel base cs with
  | none => none
  | some v => if 65535 < v ∨ v < -32768 then none else some (toI16 v)

/-- `string_to_integer` from `solution.cpp`: a `#`/`x`/`b` first character
selects the base and is skipped, anything else is decimal from position 0;
then convert and range-check. The empty string throws inside `stoll` and is
caught (`none`). -/
def string_to_integer (cs : List Char) : Option Int :=
  match cs with
  | [] => none
  | c :: _ =>
    if c = '#' then sti_core 10 (cs.drop 1)
    else if c = 'x' then sti_core 16 (cs.drop 1)
    else if c = 'b' then sti_core 2 (cs.drop 1)
    else sti_core 10 cs

/-- `is_valid_number` from `instruction.cpp`: a lone prefix character is
invalid; a prefix followed by a single sign character is invalid; a lone
sign is invalid; everything else is valid. (`front()` on an empty string is
undefined; the lexer never produces an empty numeric token, and the model
returns `true`, the `default` branch, for it.) -/
def is_valid_number (cs : List Char) : Bool :=
  match cs with
  | [] => true
  | c :: rest =>
    if c = '#' ∨ c = 'x' ∨ c = 'b' then
      match rest with
      | [] => false
      | [d] => !(d = '+' ∨ d = '-' : Bool)
      | _ => true
    else if c = '+' ∨ c = '-' then !rest.isEmpty
    else true

/-- Error results of `Instruction::add_operand`, from `instruction.hpp`. -/
inductive OperandConstructionErrorType where
  | NoError
  | InvalidTokenKind
  | InvalidNumber
  | IntegerOverflow
  | MissingQuote
deriving DecidableEq, Repr

/-- `Instruction::add_operand(token)` from `instruction.cpp`, returning the
error result together with the (possibly extended) instruction. Register
tokens read their id from `token[1] - '0'` (register tokens always have two
characters; the default only pads the model's total indexing). String tokens
require length > 1 and a closing quote, and store the slice without the
surrounding quotes. -/
def Instruction.add_operand (i : Instruction) (t : Token) :
    OperandConstructionErrorType × Instruction :=
  match t.kind with
  | .Register =>
    (.NoError, { i with operands := i.operands ++ [.reg ((t.content.getD 1 '0').toNat - 48)] })
  | .Label =>
    (.NoError, { i with operands := i.operands ++ [.lbl t.content] })
  | .Immediate | .Number =>
    if is_valid_number t.content then
      match string_to_integer t.content with
      | some v =>
        (.NoError, { i with operands :=
          i.operands ++ [Operand.from_integer (t.kind == .Immediate) v] })
      | none => (.IntegerOverflow, i)
    else (.InvalidNumber, i)
  | .String =>
    if 1 < t.content.length ∧ t.content.getLast? = some '"' then
      (.NoError, { i with operands := i.operands ++ [.strLit (t.content.drop 1).dropLast] })
    else (.MissingQuote, i)
  | _ => (.InvalidTokenKind, i)

/-- Modelled from the spec: the repository's `opcode.def` (which generates
the opcode string set used by `is_valid_opcode` and the `Opcode`
enumerators) is not among the provided sources; this list is the spec's
closed set of real mnemonics, in its order. -/
def opcode_mnemonics : List (List Char) :=
  ["ADD", "AND", "BR", "BRn", "BRz", "BRp", "BRzp", "BRnp", "BRnz", "BRnzp",
   "JMP", "JSR", "JSRR", "LD", "LDI", "LDR", "LEA", "NOT", "RET", "RTI",
   "ST", "STI", "STR", "TRAP", "GETC", "OUT", "PUTS", "IN", "PUTSP",
   "HALT"].map (·.toList)

/-- Modelled from the spec: the pseudo-instruction spellings generated from
`opcode.def` (`PSEUDO(name) "." #name`), per the spec's closed pseudo-op
set. -/
def pseudo_mnemonics : List (List Char) :=
  [".ORIG", ".FILL", ".BLKW", ".STRINGZ", ".END"].map (·.toList)

/-- `is_valid_opcode` from `parser.cpp`: exact, case-sensitive membership in
the opcode set. -/
def is_valid_opcode (cs : List Char) : Bool :=
  opcode_mnemonics.any (· == cs)

/-- `is_valid_register` from `parser.cpp`: exactly two characters, first
`'R'`, second with byte value in `['0', '8')`. -/
def is_valid_register (cs : List Char) : Bool :=
  match cs with
  | [a, d] => a = 'R' && (48 ≤ d.toNat && d.toNat < 56)
  | _ => false

/-- Hexadecimal digit test of `may_be_valid_immediate_number`
(`0-9`, `a-f`, `A-F`, compared as byte values as in the C++ lambda). -/
def is_hex_digit (c : Char) : Bool :=
  (48 ≤ c.toNat && c.toNat ≤ 57) || (97 ≤ c.toNat && c.toNat ≤ 102) ||
    (65 ≤ c.toNat && c.toNat ≤ 70)

/-- `may_be_valid_immediate_number` from `parser.cpp`: an `x` prefix with
every remaining character a hex digit, or a `b` prefix with every remaining
character `0`/`1`; `std::all_of` makes a lone prefix acceptable here. The
identifier is never empty (`front()`); the model returns `false`, the
`default` branch, for `[]`. -/
def may_be_valid_immediate_number (cs : List Char) : Bool :=
  match cs with
  | [] => false
  | c :: rest =>
    if c = 'x' then rest.all is_hex_digit
    else if c = 'b' then rest.all (fun d => d = '0' || d = '1')
    else false

/-- `identifier_kind` from `parser.cpp`: classify an identifier slice as
opcode, register, immediate, or label, in that order. -/
def identifier_kind (cs : List Char) : TokenKind :=
  if is_valid_opcode cs then .Opcode
  else if is_valid_register cs then .Register
  else if may_be_valid_immediate_number cs then .Immediate
  else .Label

/-- `is_valid_pseudo` from `parser.cpp`: exact, case-sensitive membership in
the pseudo-instruction spelling set (leading dot included). -/
def is_valid_pseudo (cs : List Char) : Bool :=
  pseudo_mnemonics.any (· == cs)

/-- `Instruction::allows_label()` from `instruction.cpp`: every opcode except
`.ORIG` and `.END`. -/
def Instruction.allows_label (i : Instruction) : Bool :=
  !(i.opcode == .ORIG) && !(i.opcode == .END)

/-- `Instruction::immediate_range()` from `solution.cpp`; the `default`
branch value-initializes the pair to `(0, 0)`. -/
def immediate_range : Opcode → Int × Int
  | .TRAP => (0, 255)
  | .ORIG | .FILL | .BLKW => (-32768, 32767)
  | .ADD | .AND => (-16, 15)
  | .LD | .LDI | .LEA | .ST | .STI
  | .BR | .BRn | .BRz | .BRp | .BRzp | .BRnp | .BRnz | .BRnzp => (-256, 255)
  | .LDR | .STR => (-32, 31)
  | .JSR => (-1024, 1023)
  | _ => (0, 0)

/-- `Instruction::expected_operand_types()` from `instruction.cpp`: the
accepted operand-type tuples per opcode (the `default` branch, shared with
the zero-operand mnemonics, is a single empty tuple). -/
def expected_operand_types : Opcode → List (List OperandType)
  | .ADD | .AND =>
    [[.Register, .Register, .Register], [.Register, .Register, .Immediate]]
  | .BRn | .BRz | .BRp | .BR | .BRzp | .BRnp | .BRnz | .BRnzp | .JSR =>
    [[.Label], [.Immediate]]
  | .JMP | .JSRR => [[.Register]]
  | .LD | .LDI | .LEA | .ST | .STI => [[.Register, .Label]]
  | .LDR | .STR => [[.Register, .Register, .Immediate]]
  | .NOT => [[.Register, .Register]]
  | .TRAP | .ORIG | .FILL => [[.Immediate]]
  | .BLKW => [[.Number]]
  | .STRINGZ => [[.StringLiteral]]
  | _ => [[]]

/-- `Instruction::validate_and_emit_diagnostics()` from `instruction.cpp`:
label permission, then operand arity against the first expected tuple, then
operand types against some expected tuple (`std::mismatch` pointwise; all of
an opcode's tuples have equal length, so `zip` loses nothing), then the
range of the first Immediate-or-Number operand. `false` is accompanied by a
diagnostic on `std::cout` in the C++. -/
def Instruction.validate_and_emit_diagnostics (i : Instruction) : Bool :=
  if !i.allows_label && i.has_label then false
  else
    let expected := expected_operand_types i.opcode
    let expected_size := (expected.headD []).length
    if i.operands.length ≠ expected_size then false
    else if !expected.any (fun tup => (i.operands.zip tup).all fun p => p.1.type == p.2) then
      false
    else
      match i.operands.find? (fun o => o.type == .Immediate || o.type == .Number) with
      | none => true
      | some o =>
        let r := immediate_range i.opcode
        let v : Int := match o with | .imm v => v | .num v => v | _ => 0
        decide (r.1 ≤ v ∧ v ≤ r.2)

/-- The address increment a single instruction contributes in
`Assembler::assign_addresses` (`solution.cpp`): `.FILL` +1, `.BLKW` + its
`regular_decimal` operand, `.STRINGZ` + literal length + 1, everything else
(including `.ORIG` and `.END`) +1. `none` models the asserting accessors. -/
def addr_step (i : Instruction) : Option Int :=
  match i.opcode with
  | .FILL => some 1
  | .BLKW => (i.get_operand 0).bind Operand.regular_decimal
  | .STRINGZ =>
    ((i.get_operand 0).bind Operand.string_literal).map (fun s => (s.length : Int) + 1)
  | _ => some 1

/-- The loop of `Assembler::assign_addresses`: assign the current `uint16_t`
address to each instruction in order, then advance it by the instruction's
increment in wrapping 16-bit arithmetic. -/
def assign_go : Nat → List Instruction → Option (List Instruction)
  | _, [] => some []
  | a, i :: rest =>
    match addr_step i with
    | none => none
    | some k =>
      (assign_go (((a : Int) + k) % 65536).toNat rest).map
        (fun out => { i with address := a } :: out)

/-- `Assembler::assign_addresses` from `solution.cpp`: the starting address
is the `immediate_value` of operand 0 of the front instruction, converted to
`uint16_t`; `front()` of an empty vector is undefined (`none`). -/
def assign_addresses (insts : List Instruction) : Option (List Instruction) :=
  match insts with
  | [] => none
  | first :: _ =>
    match (first.get_operand 0).bind Operand.immediate_value with
    | none => none
    | some v => assign_go ((v % 65536).toNat) insts

/-- The symbol table (`std::unordered_map<std::string, std::uint16_t>`),
embedded as an association list with unique keys. -/
abbrev SymTable := List (List Char × Nat)

/-- Membership test backing `Assembler::add_label`'s `emplace` failure. -/
def table_contains (t : SymTable) (k : List Char) : Bool :=
  t.any (·.1 == k)

/-- Lookup in the symbol table (`symbol_table_.find(label)`). -/
def table_lookup (t : SymTable) (k : List Char) : Option Nat :=
  (t.find? (·.1 == k)).map (·.2)

/-- `Assembler::add_label`: insert, failing (`none`) if the key exists. -/
def add_label (t : SymTable) (k : List Char) (a : Nat) : Option SymTable :=
  if table_contains t k then none else some (t ++ [(k, a)])

/-- `Assembler::scan_label` from `solution.cpp`: fold every labelled
instruction into the table; a redefinition emits a diagnostic and aborts
(`none`). -/
def scan_label (t : SymTable) : List Instruction → Option SymTable
  | [] => some t
  | i :: rest =>
    if i.has_label then
      match add_label t i.label i.address with
      | none => none
      | some t2 => scan_label t2 rest
    else scan_label t rest

/-- `Assembler::translate_opcode` from `solution.cpp` (the 4-bit opcode
field; `default` returns 13). -/
def translate_opcode : Opcode → Nat
  | .ADD => 1
  | .AND => 5
  | .BRn | .BRz | .BRp | .BR | .BRzp | .BRnp | .BRnz | .BRnzp => 0
  | .JMP => 12
  | .JSR => 4
  | .JSRR => 4
  | .LD => 2
  | .LDI => 10
  | .LDR => 6
  | .LEA => 14
  | .NOT => 9
  | .RET => 12
  | .RTI => 8
  | .ST => 3
  | .STI => 11
  | .STR => 7
  | .TRAP | .GETC | .OUT | .PUTS | .IN | .PUTSP | .HALT => 15
  | _ => 13

/-- `Assembler::translate_register` from `solution.cpp`: the register id
shifted to `position`. -/
def translate_register (o : Operand) (position : Nat) : Option Nat :=
  o.register_id.map (· <<< position)

/-- `Assembler::translate_immediate` from `solution.cpp`: the value cast to
`uint16_t` and masked to the low `bits` bits. -/
def translate_immediate (o : Operand) (bits : Nat) : Option Nat :=
  o.immediate_value.map (fun v => (v % 65536).toNat &&& ((1 <<< bits) - 1))

/-- `Assembler::translate_label` from `solution.cpp`: look the label operand
up in the symbol table; the offset is `label_address - instr_address - 1`
cast to `std::int16_t`; an unknown label or an offset outside the signed
`bits`-bit range emits a diagnostic and returns the `uint16_t(-1) = 65535`
failure sentinel; otherwise return the low `bits` bits of the offset. -/
def translate_label (tbl : SymTable) (i : Instruction) (idx bits : Nat) : Option Nat :=
  (i.get_operand idx).bind fun op =>
  op.label.bind fun l =>
  match table_lookup tbl l with
  | none => some 65535
  | some la =>
    let offset : Int := toI16 ((la : Int) - (i.address : Int) - 1)
    if offset < -(2 ^ (bits - 1)) ∨ (2 ^ (bits - 1) - 1 : Int) < offset then some 65535
    else some ((offset % 2 ^ bits).toNat)

/-- `Assembler::translate_regular_instruction` from `solution.cpp`: compose
the opcode field with the operand fields; `BRz` alone checks whether its
operand is a label and otherwise encodes the immediate directly; every other
branch calls the accessors unconditionally. `none` models an asserting
accessor applied to the wrong operand variant (or a missing operand). -/
def translate_regular_instruction (tbl : SymTable) (i : Instruction) : Option Nat :=
  let base := translate_opcode i.opcode <<< 12
  match i.opcode with
  | .ADD | .AND => do
    let a ← (i.get_operand 0).bind (translate_register · 9)
    let b ← (i.get_operand 1).bind (translate_register · 6)
    let op2 ← i.get_operand 2
    if op2.type = .Immediate then
      let c ← translate_immediate op2 5
      pure (base ||| a ||| b ||| (1 <<< 5) ||| c)
    else
      let c ← translate_register op2 0
      pure (base ||| a ||| b ||| c)
  | .BR => (translate_label tbl i 0 9).map (fun f => base ||| (7 <<< 9) ||| f)
  | .BRn => (translate_label tbl i 0 9).map (fun f => base ||| (4 <<< 9) ||| f)
  | .BRz => do
    let op0 ← i.get_operand 0
    let f ← if op0.type = .Label then translate_label tbl i 0 9 else translate_immediate op0 9
    pure (base ||| (2 <<< 9) ||| f)
  | .BRp => (translate_label tbl i 0 9).map (fun f => base ||| (1 <<< 9) ||| f)
  | .BRzp => (translate_label tbl i 0 9).map (fun f => base ||| (3 <<< 9) ||| f)
  | .BRnp => (translate_label tbl i 0 9).map (fun f => base ||| (5 <<< 9) ||| f)
  | .BRnz => (translate_label tbl i 0 9).map (fun f => base ||| (6 <<< 9) ||| f)
  | .BRnzp => (translate_label tbl i 0 9).map (fun f => base ||| (7 <<< 9) ||| f)
  | .JMP | .JSRR => ((i.get_operand 0).bind (translate_register · 6)).map (base ||| ·)
  | .JSR => (translate_label tbl i 0 11).map (fun f => base ||| (1 <<< 11) ||| f)
  | .LD | .LDI | .LEA => do
    let a ← (i.get_operand 0).bind (translate_register · 9)
    let f ← translate_label tbl i 1 9
    pure (base ||| a ||| f)
  | .LDR | .STR => do
    let a ← (i.get_operand 0).bind (translate_register · 9)
    let b ← (i.get_operand 1).bind (translate_register · 6)
    let c ← (i.get_operand 2).bind (translate_immediate · 6)
    pure (base ||| a ||| b ||| c)
  | .NOT => do
    let a ← (i.get_operand 0).bind (translate_register · 9)
    let b ← (i.get_operand 1).bind (translate_register · 6)
    pure (base ||| a ||| b ||| 0x3F)
  | .RET => some (base ||| (7 <<< 6))
  | .RTI => some base
  | .ST | .STI => do
    let a ← (i.get_operand 0).bind (translate_register · 9)
    let f ← translate_label tbl i 1 9
    pure (base ||| a ||| f)
  | .TRAP => ((i.get_operand 0).bind (translate_immediate · 8)).map (base ||| ·)
  | .GETC => some (base ||| 0x20)
  | .OUT => some (base ||| 0x21)
  | .PUTS => some (base ||| 0x22)
  | .IN => some (base ||| 0x23)
  | .PUTSP => some (base ||| 0x24)
  | .HALT => some (base ||| 0x25)
  | _ => some base

/-- `std::vector::resize(n, 0)`: truncate to `n` elements or pad with zero
words up to `n`. -/
def vec_resize (l : List Nat) (n : Nat) : List Nat :=
  if n ≤ l.length then l.take n else l ++ List.replicate (n - l.length) 0

/-- `static_cast<std::uint16_t>(c)` for a source byte read through `char`:
on the build target `char` is signed, so bytes ≥ 128 sign-extend. -/
def char_to_u16 (c : Char) : Nat :=
  if c.toNat < 128 then c.toNat else (65280 + c.toNat) % 65536

/-- `Assembler::translate_pseudo` from `solution.cpp`, appending to the
accumulated result vector: `.FILL` one word (the operand as `uint16_t`),
`.ORIG` and `.END` nothing, `.BLKW` a `resize` to
`results.size() + regular_decimal` — computed in `size_t`, so a negative
count shrinks the vector, and a negative total length wraps past
`max_size()` making `resize` throw `std::length_error` (modelled `none`) —
and `.STRINGZ` one word per character plus a NUL terminator. -/
def translate_pseudo (i : Instruction) (results : List Nat) : Option (List Nat) :=
  match i.opcode with
  | .FILL =>
    ((i.get_operand 0).bind Operand.immediate_value).map
      (fun v => results ++ [(v % 65536).toNat])
  | .ORIG => some results
  | .BLKW =>
    ((i.get_operand 0).bind Operand.regular_decimal).bind fun k =>
      if (results.length : Int) + k < 0 then none
      else some (vec_resize results ((results.length : Int) + k).toNat)
  | .STRINGZ =>
    ((i.get_operand 0).bind Operand.string_literal).map
      (fun s => (results ++ s.map char_to_u16) ++ [0])
  | .END => some results
  | _ => some results

/-- The opcodes dispatched to `translate_pseudo` by the `switch` in
`Assembler::translate` (`assembler.cpp`); everything else is a regular
instruction. -/
def is_pseudo_opcode : Opcode → Bool
  | .ORIG | .END | .FILL | .BLKW | .STRINGZ => true
  | _ => false

/-- The loop of `Assembler::translate` (`assembler.cpp`): pseudo-instructions
append their words; a regular instruction translating to the `65535` failure
sentinel makes the whole translation return the empty vector, discarding
everything accumulated. -/
def translate_go (tbl : SymTable) (acc : List Nat) : List Instruction → Option (List Nat)
  | [] => some acc
  | i :: rest =>
    if is_pseudo_opcode i.opcode then
      match translate_pseudo i acc with
      | none => none
      | some acc2 => translate_go tbl acc2 rest
    else
      match translate_regular_instruction tbl i with
      | none => none
      | some w => if w = 65535 then some [] else translate_go tbl (acc ++ [w]) rest

/-- `Assembler::translate` from `assembler.cpp`. -/
def translate (tbl : SymTable) (insts : List Instruction) : Option (List Nat) :=
  translate_go tbl [] insts

/-- The error outcomes of `Assembler::run`, one per diagnostic with which the
C++ code returns the empty vector early. -/
inductive RunError where
  | validation_failed
  | orig_missing
  | orig_duplicate
  | label_redefined
deriving DecidableEq, Repr

/-- `Assembler::run` from `assembler.cpp`: validate every instruction, check
that a nonempty sequence starts with `.ORIG` (the check is skipped when the
vector is empty) and that no later instruction is a second `.ORIG`, then
assign addresses, scan labels, and translate. For the empty sequence the
duplicate-`.ORIG` scan and `assign_addresses` both walk invalid iterators
(undefined, `none`). On success the assigned instruction list is returned
with the words, mirroring the state `main` reads `start_address()` from. -/
def run (insts : List Instruction) :
    Option (Except RunError (List Instruction × List Nat)) :=
  if insts.any (fun i => !i.validate_and_emit_diagnostics) then
    some (.error .validation_failed)
  else
    match insts with
    | [] => none
    | first :: rest =>
      if first.opcode ≠ .ORIG then some (.error .orig_missing)
      else if rest.any (fun i => i.opcode == .ORIG) then some (.error .orig_duplicate)
      else
        match assign_addresses (first :: rest) with
        | none => none
        | some assigned =>
          match scan_label [] assigned with
          | none => some (.error .label_redefined)
          | some tbl =>
            match translate tbl assigned with
            | none => none
            | some words => some (.ok (assigned, words))

/-- `Assembler::start_address` from `assembler.hpp`:
`instructions_.front().get_address()`. -/
def start_address (insts : List Instruction) : Option Nat :=
  insts.head?.map (·.address)

/-- The output loop of `main.cpp`: the `i`-th emitted word is printed with
address `start_address + i` (plain integer addition of the `uint16_t` start
and the `size_t` index). -/
def main_output (start : Nat) (binary : List Nat) : List (Nat × Nat) :=
  (List.range binary.length).map (fun k => (start + k, binary.getD k 0))

/-- Reference classifier following the claim's words (for comparison with
`identifier_kind`): try, in order, exact membership in the opcode set;
length 2 with first char `R` and second char `0`-`7`; first char `x` with a
(possibly empty) all-hex tail or first char `b` with a (possibly empty)
all-binary tail; otherwise a label. -/
def spec_identifier_kind (cs : List Char) : TokenKind :=
  if cs ∈ opcode_mnemonics then .Opcode
  else if cs.length = 2 ∧ cs.getD 0 ' ' = 'R' ∧
      48 ≤ (cs.getD 1 ' ').toNat ∧ (cs.getD 1 ' ').toNat ≤ 55 then .Register
  else if (cs.getD 0 ' ' = 'x' ∧ ∀ c ∈ cs.drop 1, is_hex_digit c = true) ∨
      (cs.getD 0 ' ' = 'b' ∧ ∀ c ∈ cs.drop 1, c = '0' ∨ c = '1') then .Immediate
  else .Label

/-- The pass-1 address increment as the claim states it: +k for a `.BLKW`
with Number operand k, +(literal length + 1) for a `.STRINGZ`, and +1 for
everything else (`.ORIG`, `.END`, `.FILL`, and every real instruction). -/
def claim_increment (i : Instruction) : Int :=
  match i.opcode with
  | .BLKW =>
    match i.operands with
    | .num k :: _ => k
    | _ => 1
  | .STRINGZ =>
    match i.operands with
    | .strLit s :: _ => (s.length : Int) + 1
    | _ => 1
  | _ => 1

/-- Sum of the claimed increments of a list of instructions. -/
def sum_increments (l : List Instruction) : Int :=
  (l.map claim_increment).sum

/-- Well-formedness of an instruction for pass 1: the operands that
`assign_addresses` reads through asserting accessors carry the matching
variant (guaranteed for every validated instruction). -/
def addr_wf (i : Instruction) : Prop :=
  (i.opcode = .BLKW → ∃ k rest, i.operands = .num k :: rest) ∧
  (i.opcode = .STRINGZ → ∃ s rest, i.operands = .strLit s :: rest)

/-- For each opcode that encodes a PC-relative label operand, the operand
index and the signed field width `N` the encoder passes to
`translate_label`: `N = 9` for the BR family and `LD`/`LDI`/`LEA`/`ST`/`STI`
(label at operand 1 for the latter group), `N = 11` for `JSR`. -/
def label_field_info : Opcode → Option (Nat × Nat)
  | .BR | .BRn | .BRz | .BRp | .BRzp | .BRnp | .BRnz | .BRnzp => some (0, 9)
  | .JSR => some (0, 11)
  | .LD | .LDI | .LEA | .ST | .STI => some (1, 9)
  | _ => none

/-- A validated `BRn` instruction whose single operand is an Immediate
(accepted by the validator's `(Immediate)` tuple for the BR family). -/
def brn_imm_example : Instruction :=
  ⟨[], .BRn, [.imm 5], 0⟩

/-- A validated `.BLKW` instruction with the negative Number operand `-1`. -/
def blkw_neg_example : Instruction :=
  ⟨[], .BLKW, [.num (-1)], 0⟩

/-- A validated `.STRINGZ` instruction whose literal is the single source
byte 255 (`ÿ`). -/
def stringz_high_example : Instruction :=
  ⟨[], .STRINGZ, [.strLit [Char.ofNat 255]], 0⟩

/-- Symbol table of the C3 witness: label `L` at address `x3000`. -/
def c3_table : SymTable :=
  [(['L'], 12288)]

/-- Instruction of the C3 witness: `BR L` at address `x3001`. -/
def c3_instr : Instruction :=
  ⟨[], .BR, [.lbl ['L']], 12289⟩

/-- A three-instruction program `.ORIG x3000; RET; .END` used by witnesses. -/
def small_prog : List Instruction :=
  [⟨[], .ORIG, [.imm 12288], 0⟩, ⟨[], .RET, [], 0⟩, ⟨[], .END, [], 0⟩]

/-- The assigned form of `small_prog` after pass 1. -/
def small_prog_assigned : List Instruction :=
  [⟨[], .ORIG, [.imm 12288], 12288⟩, ⟨[], .RET, [], 12289⟩, ⟨[], .END, [], 12290⟩]

/-! ### Helper lemmas -/

theorem takeWhile_of_all (p : Char → Bool) :
    ∀ l : List Char, (∀ c ∈ l, p c = true) → l.takeWhile p = l := by
  intro l h
  induction l with
  | nil => rfl
  | cons c rest ih =>
    have hc := h c (by simp)
    simp [List.takeWhile_cons, hc, ih fun d hd => h d (by simp [hd])]

theorem toI16_eq_of_range {n : Int} (h1 : -32768 ≤ n) (h2 : n ≤ 65535) :
    toI16 n = if n ≤ 32767 then n else n - 65536 := by
  unfold toI16
  split <;> omega

/-! ### C10 -/

/-- C10: `Instruction::add_operand` is atomic on failure: whenever it returns
any error (`InvalidTokenKind`, `InvalidNumber`, `IntegerOverflow`, or
`MissingQuote`), the instruction is returned completely unchanged — same
operand list (hence same `operand_size`), label, opcode, and address. -/
theorem claim_C10 (i : Instruction) (t : Token)
    (h : (i.add_operand t).1 ≠ OperandConstructionErrorType.NoError) :
    (i.add_operand t).2 = i := by
  obtain ⟨k, c⟩ := t
  cases k <;> simp only [Instruction.add_operand] at h ⊢ <;> try rfl
  all_goals try exact absurd rfl h
  · -- Immediate
    by_cases hv : is_valid_number c
    · rcases hsi : string_to_integer c with _ | v <;> simp [hv, hsi] at h ⊢
    · simp [hv]
  · -- Number
    by_cases hv : is_valid_number c
    · rcases hsi : string_to_integer c with _ | v <;> simp [hv, hsi] at h ⊢
    · simp [hv]
  · -- String
    by_cases hq : 1 < c.length ∧ c.getLast? = some '"'
    · simp [hq] at h
    · simp [hq]

/-- C10 witness: the token `#` (an Immediate token holding only a prefix)
fails with `InvalidNumber` and leaves the fresh instruction unchanged. -/
theorem claim_C10_witness :
    ((Instruction.mk [] .UnknownOp [] 0).add_operand ⟨.Immediate, ['#']⟩).1 ≠
      OperandConstructionErrorType.NoError ∧
    ((Instruction.mk [] .UnknownOp [] 0).add_operand ⟨.Immediate, ['#']⟩).2 =
      Instruction.mk [] .UnknownOp [] 0 :=
  ⟨by decide, claim_C10 (Instruction.mk [] .UnknownOp [] 0) ⟨.Immediate, ['#']⟩ (by decide)⟩

/-! ### C9 -/

/-- C9: the claimed accessor-safety is violated by the code. `BRn #5` passes
`validate_and_emit_diagnostics` (the BR family accepts a single Immediate
operand, range [-256, 255]), yet `translate_regular_instruction` encodes
every BR-family opcode except `BRz` by calling `translate_label`, which
reads the operand through `Operand::label()`; its
`assert(type_ == Label)` fails on the Immediate variant (modelled by the
encoder returning `none`). -/
theorem claim_C9_bug :
    brn_imm_example.validate_and_emit_diagnostics = true ∧
    translate_regular_instruction [] brn_imm_example = none := by
  constructor <;> decide

/-! ### C6 -/

/-- C6 counterexample: the validated instruction `.BLKW #-1` (Number operand
`-1` is inside [INT16_MIN, INT16_MAX]) does not append `-1 ≥ 0` zero words
to a stream that already holds the word 7 — `results.resize(size + (-1))`
shrinks the vector and the previously emitted word is destroyed. -/
theorem claim_C6_counterexample :
    blkw_neg_example.validate_and_emit_diagnostics = true ∧
    ¬ ∃ zs : List Nat, translate_pseudo blkw_neg_example [7] = some (7 :: zs) := by
  constructor
  · decide
  · rintro ⟨zs, h⟩
    rw [show translate_pseudo blkw_neg_example [7] = some [] from by decide] at h
    simp at h

/-- C6 (amended): the validator accepts `.BLKW k` for any Number `k` in
[INT16_MIN, INT16_MAX]; encoding a validated `.BLKW k` with k ≥ 0 appends
exactly `k` zero words after the previously emitted words, which are left
unchanged. (For negative `k` the `size_t` resize instead truncates the
stream, or throws when the wrapped length exceeds the vector's maximum.) -/
theorem claim_C6 :
    (∀ (i : Instruction) (k : Int) (acc : List Nat),
      i.opcode = .BLKW → i.get_operand 0 = some (.num k) → 0 ≤ k →
      translate_pseudo i acc = some (acc ++ List.replicate k.toNat 0)) ∧
    (∀ (k : Int) (a : Nat),
      (Instruction.mk [] .BLKW [.num k] a).validate_and_emit_diagnostics = true ↔
        (-32768 ≤ k ∧ k ≤ 32767)) := by
  constructor
  · intro i k acc hop hget hk
    simp only [translate_pseudo, hop, hget, Option.bind_eq_bind, Option.some_bind,
      Operand.regular_decimal]
    rw [if_neg (by omega)]
    have hn : (((acc.length : Int) + k)).toNat = acc.length + k.toNat := by omega
    rw [hn]
    unfold vec_resize
    by_cases h0 : k.toNat = 0
    · simp [h0, List.take_length]
    · rw [if_neg (by omega)]
      simp
  · intro k a
    simp [Instruction.validate_and_emit_diagnostics, Instruction.allows_label,
      Instruction.has_label, expected_operand_types, immediate_range, Operand.type,
      List.find?, List.zip, List.zipWith, List.all]

/-- C6 witness: `.BLKW #3` after an already-emitted word 5 appends exactly
three zero words, and `.BLKW` with Number operand 20000 still validates. -/
theorem claim_C6_witness :
    translate_pseudo (Instruction.mk [] .BLKW [.num 3] 0) [5] = some [5, 0, 0, 0] ∧
    (Instruction.mk [] .BLKW [.num 20000] 7).validate_and_emit_diagnostics = true :=
  ⟨(claim_C6.1 (Instruction.mk [] .BLKW [.num 3] 0) 3 [5] rfl rfl (by decide)).trans
      (by decide),
    (claim_C6.2 20000 7).mpr (by decide)⟩

/-! ### C7 -/

/-- C7 counterexample: `.STRINGZ` on the single source byte 255 validates,
but emits the word 65535, not the zero-extended 255: the byte is read
through signed `char`, so `static_cast<std::uint16_t>` sign-extends it. -/
theorem claim_C7_counterexample :
    stringz_high_example.validate_and_emit_diagnostics = true ∧
    translate_pseudo stringz_high_example [] = some [65535, 0] ∧ (65535 : Nat) ≠ 255 := by
  refine ⟨by decide, by decide, by decide⟩

/-- C7 (amended): a validated `.STRINGZ s` emits exactly one word per byte
of the literal followed by exactly one zero word; a byte below 128 is
zero-extended as claimed, while a byte in [128, 255] becomes 65280 + byte
(sign-extension through the platform's signed `char`). -/
theorem claim_C7 :
    (∀ (i : Instruction) (s : List Char) (acc : List Nat),
      i.opcode = .STRINGZ → i.get_operand 0 = some (.strLit s) →
      translate_pseudo i acc = some ((acc ++ s.map char_to_u16) ++ [0]) ∧
      ((acc ++ s.map char_to_u16) ++ [0]).length = acc.length + s.length + 1) ∧
    (∀ c : Char, c.toNat < 128 → char_to_u16 c = c.toNat) ∧
    (∀ c : Char, 128 ≤ c.toNat → c.toNat ≤ 255 → char_to_u16 c = 65280 + c.toNat) := by
  refine ⟨?_, ?_, ?_⟩
  · intro i s acc hop hget
    constructor
    · simp [translate_pseudo, hop, hget, Operand.string_literal]
    · simp
      omega
  · intro c h
    simp [char_to_u16, h]
  · intro c h1 h2
    rw [char_to_u16, if_neg (by omega), Nat.mod_eq_of_lt (by omega)]

/-- C7 witness: `.STRINGZ "Hi"` emits the ASCII codes of `H` and `i`
followed by one zero word. -/
theorem claim_C7_witness :
    translate_pseudo (Instruction.mk [] .STRINGZ [.strLit ['H', 'i']] 0) [] =
      some [72, 105, 0] ∧
    char_to_u16 'H' = 72 :=
  ⟨((claim_C7.1 (Instruction.mk [] .STRINGZ [.strLit ['H', 'i']] 0) ['H', 'i'] []
      rfl rfl).1).trans (by decide),
    claim_C7.2.1 'H' (by decide)⟩

/-! ### C5 -/

/-- C5 counterexample: for the empty parsed sequence, `Assembler::run` emits
neither the `.ORIG`-missing nor the `.ORIG`-duplicate diagnostic — the
missing-`.ORIG` check is guarded by `!instructions_.empty()` — and instead
walks invalid iterators (undefined behaviour, modelled `none`). -/
theorem claim_C5_counterexample :
    ¬ (run [] = some (.error .orig_missing) ∨ run [] = some (.error .orig_duplicate)) := by
  have h : run [] = none := rfl
  simp [h]

/-- C5 (amended): for every nonempty parsed sequence all of whose
instructions pass validation, whenever the sequence does not consist of
exactly one leading `.ORIG`, `run` emits the `.ORIG`-missing or
`.ORIG`-duplicate diagnostic and returns the empty word stream (the
`Except.error` results return the empty vector in the C++). -/
theorem claim_C5 (insts : List Instruction) (hne : insts ≠ [])
    (hval : ∀ i ∈ insts, i.validate_and_emit_diagnostics = true)
    (hno : ¬ ∃ first rest, insts = first :: rest ∧ first.opcode = .ORIG ∧
      ∀ i ∈ rest, i.opcode ≠ .ORIG) :
    run insts = some (.error .orig_missing) ∨ run insts = some (.error .orig_duplicate) := by
  match insts, hne with
  | first :: rest, _ =>
    have hva : ((first :: rest).any fun i => !i.validate_and_emit_diagnostics) = false := by
      simp only [List.any_eq_false]
      intro i hi
      simp [hval i hi]
    by_cases horig : first.opcode = .ORIG
    · right
      have hdup : ∃ i ∈ rest, i.opcode = .ORIG := by
        by_contra hc
        push_neg at hc
        exact hno ⟨first, rest, rfl, horig, hc⟩
      have hany : (rest.any fun i => i.opcode == .ORIG) = true := by
        obtain ⟨i, hi, hiop⟩ := hdup
        exact List.any_eq_true.mpr ⟨i, hi, by simp [hiop]⟩
      simp [run, hva, horig, hany]
    · left
      simp [run, hva, horig]

/-- C5 witness: the nonempty sequence holding the single validated
instruction `RET` draws one of the two `.ORIG` diagnostics. -/
theorem claim_C5_witness :
    run [Instruction.mk [] .RET [] 0] = some (.error .orig_missing) ∨
    run [Instruction.mk [] .RET [] 0] = some (.error .orig_duplicate) := by
  refine claim_C5 [Instruction.mk [] .RET [] 0] (by simp) (by decide) ?_
  rintro ⟨first, rest, heq, hop, -⟩
  cases heq
  exact absurd hop (by decide)

/-! ### C8 -/

theorem identifier_kind_congr (cs : List Char) (c1 c2 c3 : Prop)
    [Decidable c1] [Decidable c2] [Decidable c3]
    (h1 : (is_valid_opcode cs = true) ↔ c1)
    (h2 : (is_valid_register cs = true) ↔ c2)
    (h3 : (may_be_valid_immediate_number cs = true) ↔ c3) :
    identifier_kind cs = (if c1 then TokenKind.Opcode else if c2 then .Register
      else if c3 then .Immediate else .Label) := by
  simp only [identifier_kind]
  split_ifs <;> tauto

/-- C8: the lexer classifies every letter-initiated alphanumeric run by the
claimed case-sensitive rules in the claimed order (`identifier_kind` agrees
everywhere with the claim-side classifier `spec_identifier_kind`), and in
particular `add`, `Add` and `X1234` are Labels, while `.orig` and `.End`
fail the case-sensitive pseudo-op match. -/
theorem claim_C8 :
    (∀ cs : List Char, identifier_kind cs = spec_identifier_kind cs) ∧
    identifier_kind ['a', 'd', 'd'] = .Label ∧
    identifier_kind ['A', 'd', 'd'] = .Label ∧
    identifier_kind ['X', '1', '2', '3', '4'] = .Label ∧
    is_valid_pseudo ['.', 'o', 'r', 'i', 'g'] = false ∧
    is_valid_pseudo ['.', 'E', 'n', 'd'] = false := by
  refine ⟨?_, by decide, by decide, by decide, by decide, by decide⟩
  intro cs
  have h1 : (is_valid_opcode cs = true) ↔ cs ∈ opcode_mnemonics := by
    simp only [is_valid_opcode, List.any_eq_true, beq_iff_eq]
    constructor
    · rintro ⟨x, hx, rfl⟩
      exact hx
    · intro h
      exact ⟨cs, h, rfl⟩
  have h2 : (is_valid_register cs = true) ↔
      (cs.length = 2 ∧ cs.getD 0 ' ' = 'R' ∧
        48 ≤ (cs.getD 1 ' ').toNat ∧ (cs.getD 1 ' ').toNat ≤ 55) := by
    rcases cs with _ | ⟨a, _ | ⟨d, _ | ⟨e, t⟩⟩⟩ <;> simp [is_valid_register]
    omega
  have h3 : (may_be_valid_immediate_number cs = true) ↔
      ((cs.getD 0 ' ' = 'x' ∧ ∀ c ∈ cs.drop 1, is_hex_digit c = true) ∨
        (cs.getD 0 ' ' = 'b' ∧ ∀ c ∈ cs.drop 1, c = '0' ∨ c = '1')) := by
    rcases cs with _ | ⟨c, rest⟩
    · simp [may_be_valid_immediate_number]
    · by_cases hx : c = 'x'
      · subst hx
        simp [may_be_valid_immediate_number, List.all_eq_true]
      · by_cases hb : c = 'b'
        · subst hb
          simp [may_be_valid_immediate_number, List.all_eq_true]
        · simp [may_be_valid_immediate_number, hx, hb]
  unfold spec_identifier_kind
  exact identifier_kind_congr cs _ _ _ h1 h2 h3

/-! ### C1 -/

theorem digit_ne_signs {c : Char} {b : Nat} (hb : b ≤ 16) (h : digitVal c < b) :
    c ≠ '+' ∧ c ≠ '-' ∧ c ≠ '#' := by
  refine ⟨?_, ?_, ?_⟩ <;> rintro rfl
  · have hv : digitVal '+' = 99 := by decide
    omega
  · have hv : digitVal '-' = 99 := by decide
    omega
  · have hv : digitVal '#' = 99 := by decide
    omega

theorem digit_ne_xb {c : Char} (h : digitVal c < 10) : c ≠ 'x' ∧ c ≠ 'b' := by
  constructor <;> rintro rfl
  · have hv : digitVal 'x' = 33 := by decide
    omega
  · have hv : digitVal 'b' = 11 := by decide
    omega

theorem stollModel_plus (base : Nat) (ds : List Char) :
    stollModel base ('+' :: ds) = stollDigits base 1 ds := rfl

theorem stollModel_minus (base : Nat) (ds : List Char) :
    stollModel base ('-' :: ds) = stollDigits base (-1) ds := rfl

theorem stollModel_digit (base : Nat) (c : Char) (hp : c ≠ '+') (hm : c ≠ '-')
    (ds : List Char) : stollModel base (c :: ds) = stollDigits base 1 (c :: ds) := by
  simp only [stollModel]
  rw [if_neg hp, if_neg hm]

theorem string_to_integer_hash (cs : List Char) :
    string_to_integer ('#' :: cs) = sti_core 10 cs := rfl

theorem string_to_integer_x (cs : List Char) :
    string_to_integer ('x' :: cs) = sti_core 16 cs := rfl

theorem string_to_integer_b (cs : List Char) :
    string_to_integer ('b' :: cs) = sti_core 2 cs := rfl

theorem string_to_integer_plus (cs : List Char) :
    string_to_integer ('+' :: cs) = sti_core 10 ('+' :: cs) := rfl

theorem string_to_integer_minus (cs : List Char) :
    string_to_integer ('-' :: cs) = sti_core 10 ('-' :: cs) := rfl

theorem string_to_integer_digit (c : Char) (hh : c ≠ '#') (hx : c ≠ 'x') (hb : c ≠ 'b')
    (cs : List Char) : string_to_integer (c :: cs) = sti_core 10 (c :: cs) := by
  simp only [string_to_integer]
  rw [if_neg hh, if_neg hx, if_neg hb]

theorem is_valid_number_plus (ds : List Char) :
    is_valid_number ('+' :: ds) = !ds.isEmpty := rfl

theorem is_valid_number_minus (ds : List Char) :
    is_valid_number ('-' :: ds) = !ds.isEmpty := rfl

theorem stollDigits_all (base : Nat) (s : Int) (ds : List Char) (hne : ds ≠ [])
    (hdig : ∀ c ∈ ds, digitVal c < base) :
    stollDigits base s ds = some (s * (digitsVal base ds : Int)) := by
  unfold stollDigits
  rw [takeWhile_of_all _ ds fun c hc => by simpa using hdig c hc]
  have h : ds.isEmpty = false := by
    cases ds
    · exact absurd rfl hne
    · rfl
  simp [h]

theorem stoll_signed (base : Nat) (hb : base ≤ 16) (sgn : Option Char)
    (hsgn : sgn = none ∨ sgn = some '+' ∨ sgn = some '-')
    (ds : List Char) (hne : ds ≠ []) (hdig : ∀ c ∈ ds, digitVal c < base) :
    stollModel base (sgn.toList ++ ds) =
      some ((if sgn = some '-' then -1 else 1) * (digitsVal base ds : Int)) := by
  rcases hsgn with rfl | rfl | rfl
  · rcases ds with _ | ⟨d, ds2⟩
    · exact absurd rfl hne
    · have hd := hdig d (by simp)
      obtain ⟨hp, hm, -⟩ := digit_ne_signs hb hd
      show stollModel base (d :: ds2) = some (1 * (digitsVal base (d :: ds2) : Int))
      rw [stollModel_digit base d hp hm ds2]
      exact stollDigits_all base 1 (d :: ds2) (by simp) hdig
  · show stollModel base ('+' :: ds) = some (1 * (digitsVal base ds : Int))
    rw [stollModel_plus]
    exact stollDigits_all base 1 ds hne hdig
  · show stollModel base ('-' :: ds) = some ((-1) * (digitsVal base ds : Int))
    rw [stollModel_minus]
    exact stollDigits_all base (-1) ds hne hdig

theorem sti_core_eq (base : Nat) (hb : base ≤ 16) (sgn : Option Char)
    (hsgn : sgn = none ∨ sgn = some '+' ∨ sgn = some '-')
    (ds : List Char) (hne : ds ≠ []) (hdig : ∀ c ∈ ds, digitVal c < base) (n : Int)
    (hn : n = (if sgn = some '-' then -1 else 1) * (digitsVal base ds : Int)) :
    sti_core base (sgn.toList ++ ds) =
      if -32768 ≤ n ∧ n ≤ 65535 then some (toI16 n) else none := by
  unfold sti_core
  rw [stoll_signed base hb sgn hsgn ds hne hdig, ← hn]
  show (if 65535 < n ∨ n < -32768 then none else some (toI16 n)) = _
  split_ifs <;> first | rfl | omega

theorem string_to_integer_eq (pre sgn : Option Char) (base : Nat) (ds : List Char) (n : Int)
    (hpre : (pre = none ∧ base = 10) ∨ (pre = some '#' ∧ base = 10) ∨
      (pre = some 'x' ∧ base = 16) ∨ (pre = some 'b' ∧ base = 2))
    (hsgn : sgn = none ∨ ((sgn = some '+' ∨ sgn = some '-') ∧ (pre = none ∨ pre = some '#')))
    (hne : ds ≠ [])
    (hdig : ∀ c ∈ ds, digitVal c < base)
    (hn : n = (if sgn = some '-' then -1 else 1) * (digitsVal base ds : Int)) :
    string_to_integer (pre.toList ++ (sgn.toList ++ ds)) =
      if -32768 ≤ n ∧ n ≤ 65535 then some (toI16 n) else none := by
  have hb : base ≤ 16 := by rcases hpre with ⟨-, rfl⟩ | ⟨-, rfl⟩ | ⟨-, rfl⟩ | ⟨-, rfl⟩ <;> omega
  have hsgn3 : sgn = none ∨ sgn = some '+' ∨ sgn = some '-' := by tauto
  have hcore := sti_core_eq base hb sgn hsgn3 ds hne hdig n hn
  rcases hpre with ⟨rfl, rfl⟩ | ⟨rfl, rfl⟩ | ⟨rfl, rfl⟩ | ⟨rfl, rfl⟩
  · -- no prefix, base 10: the first character is a sign or a decimal digit
    rcases hsgn3 with rfl | rfl | rfl
    · rcases ds with _ | ⟨d, ds2⟩
      · exact absurd rfl hne
      · have hd := hdig d (by simp)
        obtain ⟨hp, hm, hh⟩ := digit_ne_signs hb hd
        obtain ⟨hx, hbc⟩ := digit_ne_xb hd
        show string_to_integer (d :: ds2) = _
        rw [string_to_integer_digit d hh hx hbc ds2]
        exact hcore
    · show string_to_integer ('+' :: ds) = _
      rw [string_to_integer_plus]
      exact hcore
    · show string_to_integer ('-' :: ds) = _
      rw [string_to_integer_minus]
      exact hcore
  · -- '#' prefix, base 10
    show string_to_integer ('#' :: (sgn.toList ++ ds)) = _
    rw [string_to_integer_hash]
    exact hcore
  · -- 'x' prefix, base 16: no sign possible
    have hsn : sgn = none := by
      rcases hsgn with rfl | ⟨-, h⟩
      · rfl
      · rcases h with h | h <;> simp at h
    subst hsn
    show string_to_integer ('x' :: ds) = _
    rw [string_to_integer_x]
    exact hcore
  · -- 'b' prefix, base 2: no sign possible
    have hsn : sgn = none := by
      rcases hsgn with rfl | ⟨-, h⟩
      · rfl
      · rcases h with h | h <;> simp at h
    subst hsn
    show string_to_integer ('b' :: ds) = _
    rw [string_to_integer_b]
    exact hcore

theorem is_valid_number_prefixed (p : Char) (hp3 : p = '#' ∨ p = 'x' ∨ p = 'b')
    (base : Nat) (hb : base ≤ 16) (sgn : Option Char)
    (hsgn : sgn = none ∨ sgn = some '+' ∨ sgn = some '-')
    (ds : List Char) (hne : ds ≠ []) (hdig : ∀ c ∈ ds, digitVal c < base) :
    is_valid_number (p :: (sgn.toList ++ ds)) = true := by
  rcases hsgn with rfl | rfl | rfl
  · rcases ds with _ | ⟨d, _ | ⟨d2, ds3⟩⟩
    · exact absurd rfl hne
    · have hd := hdig d (by simp)
      obtain ⟨hpl, hm, -⟩ := digit_ne_signs hb hd
      show is_valid_number (p :: [d]) = true
      simp only [is_valid_number]
      rw [if_pos hp3]
      simp [hpl, hm]
    · show is_valid_number (p :: d :: d2 :: ds3) = true
      simp only [is_valid_number]
      rw [if_pos hp3]
  · rcases ds with _ | ⟨d, ds2⟩
    · exact absurd rfl hne
    · show is_valid_number (p :: '+' :: d :: ds2) = true
      simp only [is_valid_number]
      rw [if_pos hp3]
  · rcases ds with _ | ⟨d, ds2⟩
    · exact absurd rfl hne
    · show is_valid_number (p :: '-' :: d :: ds2) = true
      simp only [is_valid_number]
      rw [if_pos hp3]

theorem is_valid_number_eq (pre sgn : Option Char) (base : Nat) (ds : List Char)
    (hpre : (pre = none ∧ base = 10) ∨ (pre = some '#' ∧ base = 10) ∨
      (pre = some 'x' ∧ base = 16) ∨ (pre = some 'b' ∧ base = 2))
    (hsgn : sgn = none ∨ ((sgn = some '+' ∨ sgn = some '-') ∧ (pre = none ∨ pre = some '#')))
    (hne : ds ≠ [])
    (hdig : ∀ c ∈ ds, digitVal c < base) :
    is_valid_number (pre.toList ++ (sgn.toList ++ ds)) = true := by
  have hb : base ≤ 16 := by rcases hpre with ⟨-, rfl⟩ | ⟨-, rfl⟩ | ⟨-, rfl⟩ | ⟨-, rfl⟩ <;> omega
  have hsgn3 : sgn = none ∨ sgn = some '+' ∨ sgn = some '-' := by tauto
  rcases hpre with ⟨rfl, rfl⟩ | ⟨rfl, rfl⟩ | ⟨rfl, rfl⟩ | ⟨rfl, rfl⟩
  · -- no prefix: the slice starts with a sign or a decimal digit
    rcases hsgn3 with rfl | rfl | rfl
    · rcases ds with _ | ⟨d, ds2⟩
      · exact absurd rfl hne
      · have hd := hdig d (by simp)
        obtain ⟨hp, hm, hh⟩ := digit_ne_signs hb hd
        obtain ⟨hx, hbc⟩ := digit_ne_xb hd
        show is_valid_number (d :: ds2) = true
        simp only [is_valid_number]
        rw [if_neg (by tauto), if_neg (by tauto)]
    · show is_valid_number ('+' :: ds) = true
      rw [is_valid_number_plus]
      rcases ds with _ | ⟨d, ds2⟩
      · exact absurd rfl hne
      · rfl
    · show is_valid_number ('-' :: ds) = true
      rw [is_valid_number_minus]
      rcases ds with _ | ⟨d, ds2⟩
      · exact absurd rfl hne
      · rfl
  · exact is_valid_number_prefixed '#' (by tauto) 10 hb sgn hsgn3 ds hne hdig
  · exact is_valid_number_prefixed 'x' (by tauto) 16 hb sgn hsgn3 ds hne hdig
  · exact is_valid_number_prefixed 'b' (by tauto) 2 hb sgn hsgn3 ds hne hdig

/-- C1: for every Immediate or Number token whose slice is a prefix
(`#`/`x`/`b` or none), an optional sign (decimal forms only), and a nonempty
run of digits of the prefix's base — i.e. every numeric token the lexer can
produce that is not rejected as `InvalidNumber` — operand construction
succeeds iff the represented integer n lies in [-32768, 65535]; the stored
`int16_t` is n itself for n ≤ 32767 and n - 65536 for n in [32768, 65535]
(so `xFFFF` and `#65535` store -1); and any n outside the range yields
`IntegerOverflow` with the instruction unchanged. The slice is indeed not
rejected: `is_valid_number` evaluates to `true` on it. -/
theorem claim_C1 (instr : Instruction) (kind : TokenKind) (pre sgn : Option Char)
    (base : Nat) (ds : List Char) (n : Int)
    (hkind : kind = TokenKind.Immediate ∨ kind = TokenKind.Number)
    (hpre : (pre = none ∧ base = 10) ∨ (pre = some '#' ∧ base = 10) ∨
      (pre = some 'x' ∧ base = 16) ∨ (pre = some 'b' ∧ base = 2))
    (hsgn : sgn = none ∨ ((sgn = some '+' ∨ sgn = some '-') ∧ (pre = none ∨ pre = some '#')))
    (hne : ds ≠ [])
    (hdig : ∀ c ∈ ds, digitVal c < base)
    (hn : n = (if sgn = some '-' then -1 else 1) * (digitsVal base ds : Int)) :
    is_valid_number (pre.toList ++ (sgn.toList ++ ds)) = true ∧
    (-32768 ≤ n ∧ n ≤ 65535 →
      instr.add_operand ⟨kind, pre.toList ++ (sgn.toList ++ ds)⟩ =
        (.NoError, { instr with operands := instr.operands ++
          [Operand.from_integer (kind == TokenKind.Immediate)
            (if n ≤ 32767 then n else n - 65536)] })) ∧
    ((n < -32768 ∨ 65535 < n) →
      instr.add_operand ⟨kind, pre.toList ++ (sgn.toList ++ ds)⟩ =
        (.IntegerOverflow, instr)) := by
  have hivn := is_valid_number_eq pre sgn base ds hpre hsgn hne hdig
  have hsti := string_to_integer_eq pre sgn base ds n hpre hsgn hne hdig hn
  refine ⟨hivn, ?_, ?_⟩
  · intro hr
    rw [if_pos hr] at hsti
    have hfold : toI16 n = if n ≤ 32767 then n else n - 65536 :=
      toI16_eq_of_range hr.1 hr.2
    rcases hkind with rfl | rfl <;>
      simp [Instruction.add_operand, hivn, hsti, hfold]
  · intro hr
    rw [if_neg (by omega)] at hsti
    rcases hkind with rfl | rfl <;>
      simp [Instruction.add_operand, hivn, hsti]

/-- C1 witness: the hexadecimal immediate `xFFFF` (n = 65535) is accepted
and stored as the `int16_t` value -1. -/
theorem claim_C1_witness :
    is_valid_number ['x', 'F', 'F', 'F', 'F'] = true ∧
    (Instruction.mk [] .UnknownOp [] 0).add_operand
        ⟨.Immediate, ['x', 'F', 'F', 'F', 'F']⟩ =
      (.NoError, Instruction.mk [] .UnknownOp [Operand.imm (-1)] 0) := by
  have h := claim_C1 (Instruction.mk [] .UnknownOp [] 0) .Immediate (some 'x') none 16
    ['F', 'F', 'F', 'F'] 65535 (Or.inl rfl)
    (Or.inr (Or.inr (Or.inl ⟨rfl, rfl⟩))) (Or.inl rfl)
    (by decide) (by decide) (by decide)
  exact ⟨h.1, (h.2.1 (by decide)).trans (by decide)⟩

/-! ### C2 -/

theorem addr_step_eq (i : Instruction) (hwf : addr_wf i) :
    addr_step i = some (claim_increment i) := by
  obtain ⟨hblkw, hstr⟩ := hwf
  cases hop : i.opcode <;> simp only [addr_step, claim_increment, hop]
  · obtain ⟨k, rest, hops⟩ := hblkw hop
    simp [hops, Instruction.get_operand, Operand.regular_decimal]
  · obtain ⟨s, rest, hops⟩ := hstr hop
    simp [hops, Instruction.get_operand, Operand.string_literal]

theorem assign_go_spec : ∀ (l : List Instruction) (a : Nat), a < 65536 →
    (∀ i ∈ l, addr_wf i) →
    ∃ out, assign_go a l = some out ∧ out.length = l.length ∧
      ∀ j oj, out[j]? = some oj →
        (∃ ij, l[j]? = some ij ∧ oj = { ij with address := oj.address }) ∧
        oj.address = (((a : Int) + sum_increments (l.take j)) % 65536).toNat := by
  intro l
  induction l with
  | nil =>
    intro a ha hwf
    exact ⟨[], rfl, rfl, fun j oj h => by simp at h⟩
  | cons i rest ih =>
    intro a ha hwf
    have hstep := addr_step_eq i (hwf i (by simp))
    have ha2 : (((a : Int) + claim_increment i) % 65536).toNat < 65536 := by omega
    obtain ⟨out2, hout2, hlen2, hspec2⟩ :=
      ih ((((a : Int) + claim_increment i) % 65536).toNat) ha2
        (fun j hj => hwf j (by simp [hj]))
    refine ⟨{ i with address := a } :: out2, ?_, by simp [hlen2], ?_⟩
    · simp [assign_go, hstep, hout2]
    · intro j oj hj
      match j, hj with
      | 0, hj =>
        simp only [List.getElem?_cons_zero, Option.some.injEq] at hj
        subst hj
        refine ⟨⟨i, by simp, rfl⟩, ?_⟩
        simp [sum_increments]
        omega
      | j + 1, hj =>
        simp only [List.getElem?_cons_succ] at hj
        obtain ⟨⟨ij, hij, hoj⟩, haddr⟩ := hspec2 j oj hj
        refine ⟨⟨ij, by simpa using hij, hoj⟩, ?_⟩
        rw [haddr]
        have hsum : sum_increments ((i :: rest).take (j + 1)) =
            claim_increment i + sum_increments (rest.take j) := by
          simp [sum_increments]
        rw [hsum]
        congr 1
        omega

/-- C2: in pass 1, for a sequence headed by `.ORIG` with immediate operand
v (and well-formed `.BLKW`/`.STRINGZ` operands, as validation guarantees),
`assign_addresses` succeeds; the `.ORIG` itself is assigned address v (as
`uint16_t`), each subsequent instruction is assigned the previous
instruction's address plus its increment — +1 for `.ORIG`, `.END`, `.FILL`
and every real instruction, +k for `.BLKW k`, +(literal length + 1) for
`.STRINGZ` — in wrapping 16-bit arithmetic, and in particular the
instruction immediately after the `.ORIG` is assigned v + 1. -/
theorem claim_C2 (insts : List Instruction) (first : Instruction)
    (rest : List Instruction) (v : Int)
    (hsplit : insts = first :: rest) (horig : first.opcode = .ORIG)
    (hop : first.get_operand 0 = some (.imm v))
    (hwf : ∀ i ∈ insts, addr_wf i) :
    ∃ out, assign_addresses insts = some out ∧ out.length = insts.length ∧
      out.head?.map Instruction.address = some ((v % 65536).toNat) ∧
      (∀ (j : Nat) (oj : Instruction), out[j]? = some oj →
        ∃ ij : Instruction, insts[j]? = some ij ∧
          oj = { ij with address := oj.address }) ∧
      (∀ (j : Nat) (oj oj1 ij : Instruction), out[j]? = some oj →
        out[j + 1]? = some oj1 → insts[j]? = some ij →
        oj1.address = (((oj.address : Int) + claim_increment ij) % 65536).toNat) ∧
      (∀ o1 : Instruction, out[1]? = some o1 →
        o1.address = ((v + 1) % 65536).toNat) := by
  subst hsplit
  have ha : ((v % 65536).toNat) < 65536 := by omega
  obtain ⟨out, hout, hlen, hspec⟩ :=
    assign_go_spec (first :: rest) ((v % 65536).toNat) ha hwf
  have hassign : assign_addresses (first :: rest) = some out := by
    simp only [assign_addresses, Instruction.get_operand] at hop ⊢
    rw [hop]
    simpa [Operand.immediate_value] using hout
  have haddr : ∀ j oj, out[j]? = some oj →
      oj.address =
        ((v % 65536 + sum_increments ((first :: rest).take j)) % 65536).toNat := by
    intro j oj hj
    have h := (hspec j oj hj).2
    rw [h]
    congr 1
    omega
  refine ⟨out, hassign, hlen, ?_, fun j oj hj => (hspec j oj hj).1, ?_, ?_⟩
  · have hl0 : 0 < out.length := by
      rw [hlen]
      simp
    have h0 : out[0]? = some out[0] := List.getElem?_eq_getElem hl0
    rw [List.head?_eq_getElem?, h0]
    have := haddr 0 _ h0
    simp only [List.take_zero, sum_increments, List.map_nil, List.sum_nil,
      Int.add_zero] at this
    simp only [Option.map_some']
    rw [this]
    congr 1
    omega
  · intro j oj oj1 ij hj hj1 hij
    have h1 := haddr j oj hj
    have h2 := haddr (j + 1) oj1 hj1
    have hsum : sum_increments ((first :: rest).take (j + 1)) =
        sum_increments ((first :: rest).take j) + claim_increment ij := by
      rw [List.take_succ, hij]
      simp [sum_increments]
    rw [h2, hsum, h1]
    congr 1
    omega
  · intro o1 h1
    have h := haddr 1 o1 h1
    rw [h]
    have hsum : sum_increments ((first :: rest).take 1) = claim_increment first := by
      simp [sum_increments]
    have hinc : claim_increment first = 1 := by
      unfold claim_increment
      rw [horig]
    rw [hsum, hinc]
    congr 1
    omega

/-- C2 witness: for `.ORIG x3000; RET; .END` pass 1 assigns address x3001
(12289) to the instruction immediately after the `.ORIG`. -/
theorem claim_C2_witness :
    (assign_addresses small_prog).bind (fun out => out[1]?.map Instruction.address) =
      some 12289 := by
  obtain ⟨out, hout, hlen, -, -, -, h5⟩ :=
    claim_C2 small_prog (Instruction.mk [] .ORIG [.imm 12288] 0)
      [Instruction.mk [] .RET [] 0, Instruction.mk [] .END [] 0] 12288
      rfl rfl rfl (by
        intro i hi
        simp only [small_prog, List.mem_cons, List.not_mem_nil, or_false] at hi
        rcases hi with rfl | rfl | rfl <;>
          exact ⟨fun h => absurd h (by decide), fun h => absurd h (by decide)⟩)
  rw [hout]
  have hl : 1 < out.length := by
    rw [hlen]
    decide
  have h1 : out[1]? = some out[1] := List.getElem?_eq_getElem hl
  simp only [Option.some_bind, h1, Option.map_some']
  rw [h5 _ h1]
  decide

/-! ### C3 -/

theorem translate_label_spec (tbl : SymTable) (i : Instruction) (idx bits : Nat)
    (l : List Char) (la : Nat)
    (hop : i.get_operand idx = some (.lbl l))
    (hlk : table_lookup tbl l = some la) :
    translate_label tbl i idx bits =
      if toI16 ((la : Int) - (i.address : Int) - 1) < -(2 ^ (bits - 1)) ∨
          (2 ^ (bits - 1) - 1 : Int) < toI16 ((la : Int) - (i.address : Int) - 1) then
        some 65535
      else some ((toI16 ((la : Int) - (i.address : Int) - 1) % 2 ^ bits).toNat) := by
  simp [translate_label, hop, hlk, Operand.label]

theorem label_field_not_pseudo {o : Opcode} {x : Nat × Nat}
    (h : label_field_info o = some x) : is_pseudo_opcode o = false := by
  cases o <;> first
    | rfl
    | exact absurd h (by simp [label_field_info])

theorem translate_go_err (tbl : SymTable) (i : Instruction)
    (hps : is_pseudo_opcode i.opcode = false)
    (hw : translate_regular_instruction tbl i = some 65535) :
    ∀ (pre post : List Instruction) (acc : List Nat),
      translate_go tbl acc (pre ++ i :: post) = none ∨
      translate_go tbl acc (pre ++ i :: post) = some [] := by
  intro pre
  induction pre with
  | nil =>
    intro post acc
    right
    simp [translate_go, hps, hw]
  | cons p pre2 ih =>
    intro post acc
    show (translate_go tbl acc (p :: (pre2 ++ i :: post)) = none) ∨
      (translate_go tbl acc (p :: (pre2 ++ i :: post)) = some [])
    cases hp : is_pseudo_opcode p.opcode
    · rcases htr : translate_regular_instruction tbl p with _ | w
      · left
        simp [translate_go, hp, htr]
      · by_cases hw65 : w = 65535
        · right
          simp [translate_go, hp, htr, hw65]
        · have hrec := ih post (acc ++ [w])
          simpa [translate_go, hp, htr, hw65] using hrec
    · rcases htp : translate_pseudo p acc with _ | acc2
      · left
        simp [translate_go, hp, htp]
      · have hrec := ih post acc2
        simpa [translate_go, hp, htp] using hrec

theorem translate_regular_err (tbl : SymTable) (i : Instruction) (idx bits : Nat)
    (l : List Char)
    (hinfo : label_field_info i.opcode = some (idx, bits))
    (hop : i.get_operand idx = some (.lbl l))
    (hreg : idx = 1 → ∃ r, i.get_operand 0 = some (.reg r) ∧ r < 8)
    (hsent : translate_label tbl i idx bits = some 65535) :
    translate_regular_instruction tbl i = some 65535 := by
  cases hopc : i.opcode <;> rw [hopc] at hinfo <;>
    simp only [label_field_info] at hinfo <;>
    try exact Option.noConfusion hinfo
  all_goals (
    injection hinfo with hpair
    injection hpair with hidx hbits
    subst hidx
    subst hbits)
  case BR | BRn | BRp | BRzp | BRnp | BRnz | BRnzp | JSR =>
    simp only [translate_regular_instruction]
    rw [hopc, hsent]
    rfl
  case BRz =>
    simp only [translate_regular_instruction]
    rw [hopc]
    simp only [hop, Option.bind_eq_bind, Option.some_bind]
    rw [show (Operand.lbl l).type = .Label from rfl, if_pos rfl, hsent]
    rfl
  case LD | LDI | LEA | ST | STI =>
    obtain ⟨r, hr0, hrlt⟩ := hreg rfl
    simp only [translate_regular_instruction]
    rw [hopc]
    simp only [hr0, hsent, Option.bind_eq_bind, Option.some_bind, translate_register,
      Operand.register_id, Option.map_some']
    interval_cases r <;> rfl

/-- C3: for every instruction whose label operand resolves in the symbol
table to address L, the encoder computes offset = L - instr_address - 1 in
16-bit signed arithmetic; if the offset fits the signed N-bit field of the
opcode (N and the operand index per `label_field_info`), `translate_label`
returns exactly the low N bits of the offset (which the encoder ORs into
the word's field); otherwise it emits the out-of-range diagnostic, returns
the 65535 failure sentinel, and `Assembler::translate` of any instruction
list containing the instruction returns the empty word stream (or has no
defined result when another instruction triggers undefined behaviour
first). -/
theorem claim_C3 (tbl : SymTable) (i : Instruction) (idx bits : Nat)
    (l : List Char) (la : Nat) (off : Int)
    (hinfo : label_field_info i.opcode = some (idx, bits))
    (hop : i.get_operand idx = some (.lbl l))
    (hlk : table_lookup tbl l = some la)
    (hreg : idx = 1 → ∃ r, i.get_operand 0 = some (.reg r) ∧ r < 8)
    (hoff : off = toI16 ((la : Int) - (i.address : Int) - 1)) :
    ((-(2 ^ (bits - 1)) ≤ off ∧ off ≤ 2 ^ (bits - 1) - 1) →
      translate_label tbl i idx bits = some ((off % 2 ^ bits).toNat)) ∧
    ((off < -(2 ^ (bits - 1)) ∨ 2 ^ (bits - 1) - 1 < off) →
      translate_label tbl i idx bits = some 65535 ∧
      ∀ (pre post : List Instruction),
        translate tbl (pre ++ i :: post) = none ∨
        translate tbl (pre ++ i :: post) = some []) := by
  subst hoff
  have hspec := translate_label_spec tbl i idx bits l la hop hlk
  constructor
  · intro hr
    rw [hspec, if_neg (by omega)]
  · intro hr
    have hsent : translate_label tbl i idx bits = some 65535 := by
      rw [hspec, if_pos (by omega)]
    refine ⟨hsent, fun pre post => ?_⟩
    exact translate_go_err tbl i (label_field_not_pseudo hinfo)
      (translate_regular_err tbl i idx bits l hinfo hop hreg hsent) pre post []

/-- C3 witness: `BR L` at address x3001 with L = x3000 gives offset -2,
which fits the 9-bit field as the low nine bits 510 (0x1FE). -/
theorem claim_C3_witness : translate_label c3_table c3_instr 0 9 = some 510 := by
  have h := claim_C3 c3_table c3_instr 0 9 ['L'] 12288
    (toI16 ((12288 : Int) - (12289 : Int) - 1)) rfl rfl rfl
    (fun h => absurd h (by decide)) rfl
  exact (h.1 (by decide)).trans (by decide)

/-! ### C4 -/

theorem assign_addresses_head (first : Instruction) (rest out : List Instruction) (v : Int)
    (hop : first.get_operand 0 = some (.imm v))
    (h : assign_addresses (first :: rest) = some out) :
    out.head?.map Instruction.address = some ((v % 65536).toNat) := by
  simp only [assign_addresses, hop, Option.bind_eq_bind, Option.some_bind,
    Operand.immediate_value] at h
  simp only [assign_go] at h
  rcases hstep : addr_step first with _ | k
  · rw [hstep] at h
    dsimp only at h
    simp at h
  · rw [hstep] at h
    dsimp only at h
    rcases hgo : assign_go ((((v % 65536).toNat : Int) + k) % 65536).toNat rest with _ | out2
    · rw [hgo] at h
      simp at h
    · rw [hgo] at h
      simp only [Option.map_some', Option.some.injEq] at h
      rw [← h]
      rfl

/-- C4: for every program that assembles successfully, the output loop of
`main` lists the i-th emitted word (0-based) at address
(`.ORIG` operand as u16) + i: the printed start address is exactly the
`.ORIG` operand, addresses increase by exactly 1 per emitted word, and the
`.ORIG` and `.END` directives themselves contribute no output words. -/
theorem claim_C4 (insts assigned : List Instruction) (binary : List Nat)
    (first : Instruction) (v : Int)
    (hrun : run insts = some (.ok (assigned, binary)))
    (hfirst : insts.head? = some first)
    (hop : first.get_operand 0 = some (.imm v)) :
    start_address assigned = some ((v % 65536).toNat) ∧
    (∀ k : Nat, k < binary.length →
      (main_output ((v % 65536).toNat) binary)[k]? =
        some ((v % 65536).toNat + k, binary.getD k 0)) ∧
    (∀ (j : Instruction) (acc : List Nat), j.opcode = .ORIG ∨ j.opcode = .END →
      translate_pseudo j acc = some acc) := by
  refine ⟨?_, ?_, ?_⟩
  · rcases insts with _ | ⟨f, rest⟩
    · simp at hfirst
    · have hf : first = f := by
        simp only [List.head?_cons, Option.some.injEq] at hfirst
        exact hfirst.symm
      subst hf
      simp only [run] at hrun
      split at hrun
      · simp at hrun
      · split at hrun
        · simp at hrun
        · split at hrun
          · simp at hrun
          · rcases hassign : assign_addresses (first :: rest) with _ | assigned2
            · rw [hassign] at hrun
              simp at hrun
            · rw [hassign] at hrun
              dsimp only at hrun
              rcases hscan : scan_label [] assigned2 with _ | tbl
              · rw [hscan] at hrun
                simp at hrun
              · rw [hscan] at hrun
                dsimp only at hrun
                rcases htr : translate tbl assigned2 with _ | words
                · rw [htr] at hrun
                  simp at hrun
                · rw [htr] at hrun
                  dsimp only at hrun
                  simp only [Option.some.injEq, Except.ok.injEq, Prod.mk.injEq] at hrun
                  obtain ⟨rfl, -⟩ := hrun
                  exact assign_addresses_head first rest assigned2 v hop hassign
  · intro k hk
    simp [main_output, List.getElem?_map, List.getElem?_range, hk]
  · intro j acc h
    rcases h with h | h <;> simp [translate_pseudo, h]

/-- C4 witness: `.ORIG x3000; RET; .END` assembles to the single word
0xC1C0 = 49600, printed at address x3000 = 12288 (the `.ORIG` operand), and
`.ORIG` contributes no words. -/
theorem claim_C4_witness :
    start_address small_prog_assigned = some 12288 ∧
    (main_output 12288 [49600])[0]? = some (12288, 49600) ∧
    translate_pseudo (Instruction.mk [] .ORIG [.imm 12288] 12288) [1, 2] = some [1, 2] := by
  have h := claim_C4 small_prog small_prog_assigned [49600]
    (Instruction.mk [] .ORIG [.imm 12288] 0) 12288 rfl rfl rfl
  exact ⟨h.1.trans (by decide), (h.2.1 0 (by decide)).trans (by decide),
    h.2.2 (Instruction.mk [] .ORIG [.imm 12288] 12288) [1, 2] (Or.inl rfl)⟩

end LC3
